import Mathlib

set_option maxHeartbeats 1000000

/-!
Shallow embedding of the varlink server runtime
(`src/varlink/src/server.rs`) and of the generated dispatch code of the
ping example (`src/examples/ping/src/org_example_ping.rs`).

Effectful operations (environment variables, filesystem, sockets) are
modelled by explicit oracle inputs and by event traces recording the calls
the code performs.
-/

namespace Varlink

/-- The subset of std::io::ErrorKind values this development distinguishes. -/
inductive IOErrorKind
  | wouldBlock
  | notFound
  | permissionDenied
  | otherErr
  deriving DecidableEq

/-- Modelled from the spec: the varlink error taxonomy (`ErrorKind` in
src/varlink/src/lib.rs, which is not among the provided sources): an IO
failure preserving the native category, a deserialization failure carrying
the decode message, the invalid-address error, the connection-closed error,
and the dedicated idle-timeout error. -/
inductive ErrorKind
  | ioFail (k : IOErrorKind)
  | serdeJsonDe (msg : String)
  | invalidAddress
  | connectionClosed
  | timeout
  deriving DecidableEq

/-! ## Worker pool (`ThreadPool`, `Worker::new`) -/

/-- Observable status of one worker thread. -/
inductive WStatus
  | idle
  | busy
  | done
  deriving DecidableEq

/-- State of the pool: the shared `num_busy` counter (an i64 behind an
RwLock in the source) and the status of each worker thread. -/
structure PoolSt where
  numBusy : Int
  workers : List WStatus
  deriving DecidableEq

/-- The pool state right after `ThreadPool::new(size)` succeeds: `size`
spawned workers, all waiting on the channel, `num_busy` initialised to 0. -/
def ThreadPool.init (size : Nat) : PoolSt :=
  ⟨0, List.replicate size WStatus.idle⟩

/-- Model of `ThreadPool::new`: its assertion of a positive size panics on size 0 (modelled as
`none`); otherwise the pool starts with `size` idle workers. -/
def ThreadPool.new (size : Nat) : Option PoolSt :=
  if 0 < size then some (ThreadPool.init size) else none

/-- Number of workers currently running a job. -/
def countBusy : List WStatus → Nat
  | [] => 0
  | w :: ws => (if w = WStatus.busy then 1 else 0) + countBusy ws

/-- Interleaved transitions of the worker loop in `Worker::new`: a worker
dequeues a job and increments `num_busy`, finishes a job and decrements it,
or dequeues the `Terminate` sentinel (only possible between jobs) and
exits. -/
inductive PoolStep : PoolSt → PoolSt → Prop
  | startJob (s : PoolSt) (i : Nat) (h : s.workers.get? i = some WStatus.idle) :
      PoolStep s ⟨s.numBusy + 1, s.workers.set i WStatus.busy⟩
  | finishJob (s : PoolSt) (i : Nat) (h : s.workers.get? i = some WStatus.busy) :
      PoolStep s ⟨s.numBusy - 1, s.workers.set i WStatus.idle⟩
  | terminateWorker (s : PoolSt) (i : Nat) (h : s.workers.get? i = some WStatus.idle) :
      PoolStep s ⟨s.numBusy, s.workers.set i WStatus.done⟩

/-- States reachable from a freshly constructed pool. -/
def PoolReachable (n : Nat) (s : PoolSt) : Prop :=
  Relation.ReflTransGen PoolStep (ThreadPool.init n) s

/-! ## Worker loop and pool teardown (`Worker::new`, `Drop for ThreadPool`) -/

/-- A message on the pool's mpsc channel: a job (identified by a number in
this model) or the termination sentinel. -/
inductive Message
  | newJob (id : Nat)
  | terminate
  deriving DecidableEq

/-- The loop body of `Worker::new`, run over the sequence of messages this
worker dequeues: returns the jobs it runs, in order, and whether the loop
exited via the `Terminate` sentinel.  A `recv` on an empty remainder models
a worker still blocked on the channel (`([], false)`). -/
def workerRun : List Message → List Nat × Bool
  | [] => ([], false)
  | Message.newJob j :: rest =>
      let r := workerRun rest
      (j :: r.1, r.2)
  | Message.terminate :: _ => ([], true)

/-- Action performed by `Drop for ThreadPool`. -/
inductive TpDropEv
  | sendTerminate
  | joinWorker (i : Nat)
  deriving DecidableEq

/-- The trace of `Drop for ThreadPool` on a pool of `n` workers: first one
`Terminate` message per worker is sent, then every worker thread is
joined. -/
def ThreadPool.dropTrace (n : Nat) : List TpDropEv :=
  List.replicate n TpDropEv.sendTerminate ++ (List.range n).map TpDropEv.joinWorker

/-! ## The accept loop of `listen` -/

/-- The accept loop of `listen`, run over a finite observation of accept
attempts.  Each entry is the outcome of `listener.accept()` paired with the
value `pool.num_busy()` reads at that instant; `d` counts the jobs handed
to the pool so far.  A would-block error with no busy worker returns the
dedicated `ErrorKind::Timeout`; a would-block error with busy workers
continues the loop; any other error propagates; a connection is dispatched
to the pool. -/
def listenLoop : List (Except ErrorKind Unit × Int) → Nat → Except ErrorKind Nat
  | [], d => Except.ok d
  | (acc, busy) :: rest, d =>
    match acc with
    | Except.error e =>
      if e = ErrorKind.ioFail IOErrorKind.wouldBlock then
        if busy = 0 then Except.error ErrorKind.timeout else listenLoop rest d
      else Except.error e
    | Except.ok _ => listenLoop rest (d + 1)

/-- Overall outcome of `listen`. -/
inductive ListenOutcome
  | panicPoolSize
  | setupFail (e : ErrorKind)
  | finished (r : Except ErrorKind Nat)

/-- Model of `listen`: build the listener, construct the pool (panicking if
`workers = 0`), then run the accept loop. -/
def listen (listenerResult : Except ErrorKind Unit) (workers : Nat)
    (events : List (Except ErrorKind Unit × Int)) : ListenOutcome :=
  match listenerResult with
  | Except.error e => ListenOutcome.setupFail e
  | Except.ok _ =>
    match ThreadPool.new workers with
    | none => ListenOutcome.panicPoolSize
    | some _ => ListenOutcome.finished (listenLoop events 0)

/-! ## String helpers mirroring the Rust string operations used -/

/-- Rust `str::starts_with` on the underlying characters. -/
def strStartsWith (s pre : String) : Bool :=
  pre.data.isPrefixOf s.data

/-- Rust byte slicing `&s[n..]` (the prefixes sliced off in server.rs are
ASCII, so byte and character counts agree). -/
def strDrop (s : String) (n : Nat) : String :=
  ⟨s.data.drop n⟩

/-- Rust `s.split(";").next().unwrap()`: the part of `s` before its first
`;`, or all of `s` when it has none. -/
def upToSemicolon (s : String) : String :=
  ⟨s.data.takeWhile (fun c => c ≠ ';')⟩

/-- Rust `s.replacen(pat, to, 1)` for a one-character pattern: replace the
first occurrence of `pat`. -/
def replaceFirstChar (pat rep : Char) : List Char → List Char
  | [] => []
  | c :: cs => if c = pat then rep :: cs else c :: replaceFirstChar pat rep cs

/-- Rust `s.replacen("@", "\0", 1)` as used on the abstract-socket name. -/
def replacen1 (s : String) (pat rep : Char) : String :=
  ⟨replaceFirstChar pat rep s.data⟩

/-- Rust `str::split(sep)` for a one-character separator: `""` yields
`[""]`, and every separator opens a new (possibly empty) piece. -/
def splitOnChar (sep : Char) : List Char → List (List Char)
  | [] => [[]]
  | c :: cs =>
    if c = sep then [] :: splitOnChar sep cs
    else
      match splitOnChar sep cs with
      | [] => [[c]]
      | g :: gs => (c :: g) :: gs

/-- Value of a decimal digit character. -/
def digitVal (c : Char) : Option Nat :=
  if '0' ≤ c ∧ c ≤ '9' then some (c.toNat - '0'.toNat) else none

/-- Accumulating decimal parser: fails on any non-digit character. -/
def parseDigitsAux : List Char → Nat → Option Nat
  | [], acc => some acc
  | c :: cs, acc =>
    match digitVal c with
    | some d => parseDigitsAux cs (acc * 10 + d)
    | none => none

/-- A non-empty all-digit sequence, as a number. -/
def parseDigits : List Char → Option Nat
  | [] => none
  | cs => parseDigitsAux cs 0

/-- Rust `s.parse::<u32>()`: optional leading `+`, then digits, value below
2^32. -/
def parseU32 (s : String) : Option Nat :=
  let cs :=
    match s.data with
    | '+' :: rest => rest
    | cs => cs
  match parseDigits cs with
  | some n => if n < 2 ^ 32 then some n else none
  | none => none

/-- Rust `s.parse::<i32>()`: optional sign, then digits, value within the
i32 range. -/
def parseI32 (s : String) : Option Int :=
  match s.data with
  | '-' :: rest =>
    match parseDigits rest with
    | some n => if (n : Int) ≤ 2 ^ 31 then some (-(n : Int)) else none
    | none => none
  | '+' :: rest =>
    match parseDigits rest with
    | some n => if n < 2 ^ 31 then some (n : Int) else none
    | none => none
  | cs =>
    match parseDigits cs with
    | some n => if n < 2 ^ 31 then some (n : Int) else none
    | none => none

/-! ## Service activation (`activation_listener`) -/

/-- Snapshot of the three environment variables `activation_listener`
reads. -/
structure Env where
  listen_fds : Option String
  listen_pid : Option String
  listen_fdnames : Option String

/-- Reduction of an integer to the i32 range by two's complement: the value
a Rust wrapping cast or wrapping i32 operation produces. -/
def wrapI32 (x : Int) : Int :=
  if x % 2 ^ 32 < 2 ^ 31 then x % 2 ^ 32 else x % 2 ^ 32 - 2 ^ 32

/-- The descriptor value `3 + i as i32` computed at server.rs:89 for the
match index `i` (a usize): the cast `i as i32` truncates to 32 bits two's
complement, and the i32 addition wraps likewise (release semantics; a
debug build would panic at exactly the inputs where this wraps). -/
def fdVal (i : Nat) : Int :=
  wrapI32 (3 + wrapI32 (i : Int))

/-- Scan of `LISTEN_FDNAMES.split(":")` in `activation_listener`: the first
entry equal to `"varlink"`, counted with `enumerate`, yields descriptor
`3 + i as i32`. -/
def findFdIndex : Nat → List (List Char) → Option Int
  | _, [] => none
  | i, v :: rest =>
    if v = "varlink".data then some (fdVal i) else findFdIndex (i + 1) rest

/-- Model of `activation_listener` as a pure function of the environment snapshot
and the current process id: `LISTEN_FDS` must parse as a u32 at least 1,
`LISTEN_PID` must parse as an i32 equal to `getpid()`; one descriptor means
the fixed fd 3, several mean the `"varlink"` entry of `LISTEN_FDNAMES`
selects fd `3 + index`.  (The Rust signature `Result<Option<i32>>` never
returns `Err`, so the model returns the option alone.) -/
def activation_listener (env : Env) (pid : Int) : Option Int :=
  match env.listen_fds with
  | none => none
  | some s =>
    match parseU32 s with
    | none => none
    | some nfds =>
      if 1 ≤ nfds then
        match env.listen_pid with
        | none => none
        | some p =>
          if parseI32 p = some pid then
            if nfds = 1 then some 3
            else
              match env.listen_fdnames with
              | none => none
              | some names => findFdIndex 0 (splitOnChar ':' names.data)
          else none
      else none

/-! ## The transport listener (`VarlinkListener`) -/

/-- A `UnixListener` handle as far as `Drop` inspects it:
`localAddr = some a` models `local_addr()` returning `Ok`, and `a` is the
`as_pathname()` of that address (`some path` for a path-backed socket,
`none` for an abstract or unnamed one). -/
structure UnixHandle where
  localAddr : Option (Option String)
  deriving DecidableEq

/-- Mirror of the Rust enum VarlinkListener holding TCP(Option<TcpListener>, bool)
and UNIX(Option<UnixListener>, bool); the Bool is the "adopted" flag. -/
inductive Listener
  | tcpL (handle : Option Unit) (adopted : Bool)
  | unixL (handle : Option UnixHandle) (adopted : Bool)
  deriving DecidableEq

/-- Oracle for the effectful operations `VarlinkListener::new` performs:
the service-activation lookup, the outcome of each filesystem/socket call
(`none` models success, `some k` an IO error of kind `k`), and the
`local_addr` shape of an adopted Unix descriptor. -/
structure SysOracle where
  activation : Option Int
  removeFileRes : String → Option IOErrorKind
  bindTcpRes : String → Option IOErrorKind
  bindUnixRes : String → Option IOErrorKind
  bindAbstractRes : String → Option IOErrorKind
  setReadTimeoutRes : Option IOErrorKind
  adoptedUnixLocalAddr : Option (Option String)

/-- Externally visible call performed during `VarlinkListener::new`. -/
inductive Ev
  | adoptFd (fd : Int)
  | removeFile (path : String) (res : Option IOErrorKind)
  | bindTcp (addr : String)
  | bindUnixPath (path : String)
  | bindAbstract (name : String)
  | setReadTimeout (secs : Nat)
  deriving DecidableEq

/-- The `set_read_timeout` call made when `timeout != 0`: the events it
adds and its outcome. -/
def timeoutStep (o : SysOracle) (timeout : Nat) : List Ev × Option IOErrorKind :=
  if timeout = 0 then ([], none)
  else ([Ev.setReadTimeout timeout], o.setReadTimeoutRes)

/-- Model of `VarlinkListener::new(address, timeout)`: the event trace of external
calls and the result.  With an activation descriptor available, a
`tcp:`/`unix:` address adopts it (marking the listener adopted) and any
other address is invalid.  Otherwise `tcp:` binds the whole remainder of
the address, `unix:` takes the part before the first `;` and either binds
the abstract name (leading `@` replaced by NUL) or removes any stale
socket file, ignoring the outcome, and binds the path; any other address is
invalid. -/
def VarlinkListener.new (o : SysOracle) (address : String) (timeout : Nat) :
    List Ev × Except ErrorKind Listener :=
  match o.activation with
  | some l =>
    if strStartsWith address "tcp:" then
      let t := timeoutStep o timeout
      match t.2 with
      | some k => (Ev.adoptFd l :: t.1, Except.error (ErrorKind.ioFail k))
      | none => (Ev.adoptFd l :: t.1, Except.ok (Listener.tcpL (some ()) true))
    else if strStartsWith address "unix:" then
      let t := timeoutStep o timeout
      match t.2 with
      | some k => (Ev.adoptFd l :: t.1, Except.error (ErrorKind.ioFail k))
      | none =>
        (Ev.adoptFd l :: t.1,
          Except.ok (Listener.unixL (some ⟨o.adoptedUnixLocalAddr⟩) true))
    else ([], Except.error ErrorKind.invalidAddress)
  | none =>
    if strStartsWith address "tcp:" then
      let target := strDrop address 4
      match o.bindTcpRes target with
      | some k => ([Ev.bindTcp target], Except.error (ErrorKind.ioFail k))
      | none =>
        let t := timeoutStep o timeout
        match t.2 with
        | some k => (Ev.bindTcp target :: t.1, Except.error (ErrorKind.ioFail k))
        | none => (Ev.bindTcp target :: t.1, Except.ok (Listener.tcpL (some ()) false))
    else if strStartsWith address "unix:" then
      let addr := upToSemicolon (strDrop address 5)
      if strStartsWith addr "@" then
        let name := replacen1 addr '@' (Char.ofNat 0)
        match o.bindAbstractRes name with
        | some k => ([Ev.bindAbstract name], Except.error (ErrorKind.ioFail k))
        | none =>
          let t := timeoutStep o timeout
          match t.2 with
          | some k => (Ev.bindAbstract name :: t.1, Except.error (ErrorKind.ioFail k))
          | none =>
            (Ev.bindAbstract name :: t.1,
              Except.ok (Listener.unixL (some ⟨some none⟩) false))
      else
        let rres := o.removeFileRes addr
        match o.bindUnixRes addr with
        | some k =>
          ([Ev.removeFile addr rres, Ev.bindUnixPath addr],
            Except.error (ErrorKind.ioFail k))
        | none =>
          let t := timeoutStep o timeout
          match t.2 with
          | some k =>
            (Ev.removeFile addr rres :: Ev.bindUnixPath addr :: t.1,
              Except.error (ErrorKind.ioFail k))
          | none =>
            (Ev.removeFile addr rres :: Ev.bindUnixPath addr :: t.1,
              Except.ok (Listener.unixL (some ⟨some (some addr)⟩) false))
    else ([], Except.error ErrorKind.invalidAddress)

/-- Action performed by `Drop for VarlinkListener`. -/
inductive DropEv
  | removeFile (path : String)
  | clearReadTimeout
  deriving DecidableEq

/-- Model of `Drop for VarlinkListener`: a live non-adopted Unix listener whose
local address is path-backed unlinks that path; a live adopted Unix
listener clears its read timeout (restoring blocking mode); every other
listener does nothing. -/
def VarlinkListener.dropEvents : Listener → List DropEv
  | Listener.unixL (some h) false =>
    match h.localAddr with
    | some (some p) => [DropEv.removeFile p]
    | _ => []
  | Listener.unixL (some _) true => [DropEv.clearReadTimeout]
  | _ => []

/-! ## Generated dispatch of the ping example
(`VarlinkInterfaceProxy::call` in org_example_ping.rs) -/

/-- JSON values (serde_json::Value). -/
inductive JValue
  | nullV
  | boolV (b : Bool)
  | numV (n : Int)
  | strV (s : String)
  | arrV (xs : List JValue)
  | objV (fields : List (String × JValue))

/-- An inbound varlink request as the proxy reads it: the qualified method
name and the optional parameters object. -/
structure Request where
  method : String
  parameters : Option JValue

/-- A reply envelope: either parameters or a named error with optional
parameters. -/
structure Reply where
  error : Option String
  parameters : Option JValue

/-- Modelled from the spec: `Call::reply_method_not_found` in
src/varlink/src/lib.rs (not among the provided sources) sends the
"method not found" named error carrying the offending method name. -/
def reply_method_not_found (m : String) : Reply :=
  ⟨some "org.varlink.service.MethodNotFound",
    some (JValue.objV [("method", JValue.strV m)])⟩

/-- Modelled from the spec: `Call::reply_invalid_parameter` in
src/varlink/src/lib.rs (not among the provided sources) sends the standard
invalid-parameter error carrying the offending parameter description. -/
def reply_invalid_parameter (p : String) : Reply :=
  ⟨some "org.varlink.service.InvalidParameter",
    some (JValue.objV [("parameter", JValue.strV p)])⟩

/-- First binding of a key in a JSON object. -/
def jLookup (key : String) : List (String × JValue) → Option JValue
  | [] => none
  | (k, v) :: rest => if k = key then some v else jLookup key rest

/-- Mirror of the Rust struct Ping_Args holding one string field `ping`. -/
structure Ping_Args where
  ping : String
  deriving DecidableEq

/-- Model of `serde_json::from_value::<Ping_Args>`: needs an object with a string
field `ping`; the error message of a failure names the offending field when
one is identifiable. -/
def decodePingArgs : JValue → Except String Ping_Args
  | JValue.objV fields =>
    match jLookup "ping" fields with
    | some (JValue.strV s) => Except.ok ⟨s⟩
    | some _ => Except.error "invalid type for field `ping`"
    | none => Except.error "missing field `ping`"
  | _ => Except.error "invalid type: expected struct Ping_Args"

/-- Behaviour of the service implementation behind the proxy (the
`VarlinkInterface` impl lives outside the provided sources): the replies a
handler writes and the result it returns. -/
structure HandlerBehavior where
  onPing : String → List Reply × Except ErrorKind Unit
  onUpgrade : List Reply × Except ErrorKind Unit

/-- Which handler the proxy invoked. -/
inductive Invoked
  | pingM (arg : String)
  | upgradeM

/-- Observable outcome of one `VarlinkInterfaceProxy::call`: the replies
written on the connection, the handler invoked (if any), and the returned
result. -/
structure CallOutcome where
  replies : List Reply
  invoked : Option Invoked
  result : Except ErrorKind Unit

/-- Model of `VarlinkInterfaceProxy::call`: dispatch on the method name.  `Ping`
decodes its arguments, replying with the invalid-parameter error (and
returning the decode failure) when deserialization fails, or with the
invalid-parameter error on the literal `"parameters"` when the parameters
are absent; `Upgrade` takes no arguments; any other method name gets the
method-not-found error and invokes no handler. -/
def proxyCall (h : HandlerBehavior) (req : Request) : CallOutcome :=
  if req.method = "org.example.ping.Ping" then
    match req.parameters with
    | some v =>
      match decodePingArgs v with
      | Except.ok args =>
        let r := h.onPing args.ping
        ⟨r.1, some (Invoked.pingM args.ping), r.2⟩
      | Except.error es =>
        ⟨[reply_invalid_parameter es], none, Except.error (ErrorKind.serdeJsonDe es)⟩
    | none => ⟨[reply_invalid_parameter "parameters"], none, Except.ok ()⟩
  else if req.method = "org.example.ping.Upgrade" then
    let r := h.onUpgrade
    ⟨r.1, some Invoked.upgradeM, r.2⟩
  else ⟨[reply_method_not_found req.method], none, Except.ok ()⟩

/-! ## Concrete oracles and handlers used in witnesses -/

/-- The inductive invariant tying `num_busy` to the workers actually
running a job. -/
def PoolInv (n : Nat) (s : PoolSt) : Prop :=
  s.workers.length = n ∧ s.numBusy = (countBusy s.workers : Int)

/-- Oracle: no activation descriptor, every external call succeeds. -/
def oracleAllOk : SysOracle :=
  ⟨none, fun _ => none, fun _ => none, fun _ => none, fun _ => none, none, none⟩

/-- Oracle: like `oracleAllOk` except `fs::remove_file` fails with
`PermissionDenied`. -/
def oracleRemoveFails : SysOracle :=
  ⟨none, fun _ => some IOErrorKind.permissionDenied, fun _ => none, fun _ => none,
    fun _ => none, none, none⟩

/-- The oracle `o` with its removal outcomes replaced by `r`. -/
def SysOracle.withRemove (o : SysOracle) (r : String → Option IOErrorKind) : SysOracle :=
  ⟨o.activation, r, o.bindTcpRes, o.bindUnixRes, o.bindAbstractRes,
    o.setReadTimeoutRes, o.adoptedUnixLocalAddr⟩

/-- A handler implementation that writes no reply and succeeds. -/
def hNone : HandlerBehavior :=
  ⟨fun _ => ([], Except.ok ()), ([], Except.ok ())⟩

/-! ## Helper lemmas about the pool model -/

theorem countBusy_le_length (ws : List WStatus) : countBusy ws ≤ ws.length := by
  induction ws with
  | nil => simp [countBusy]
  | cons x xs ih =>
    simp only [countBusy, List.length_cons]
    split_ifs <;> omega

theorem countBusy_set (ws : List WStatus) (i : Nat) (a b : WStatus)
    (h : ws.get? i = some a) :
    countBusy (ws.set i b) + (if a = WStatus.busy then 1 else 0)
      = countBusy ws + (if b = WStatus.busy then 1 else 0) := by
  induction ws generalizing i with
  | nil => simp at h
  | cons x xs ih =>
    cases i with
    | zero =>
      simp only [List.get?] at h
      injection h with h
      subst h
      simp only [List.set, countBusy]
      omega
    | succ n =>
      simp only [List.get?] at h
      have hx := ih n h
      simp only [List.set, countBusy]
      omega

theorem countBusy_replicate_idle (n : Nat) :
    countBusy (List.replicate n WStatus.idle) = 0 := by
  induction n with
  | zero => rfl
  | succ n ih => simp [List.replicate_succ, countBusy, ih]

theorem countBusy_eq_zero_of_all_done (ws : List WStatus)
    (h : ∀ w ∈ ws, w = WStatus.done) : countBusy ws = 0 := by
  induction ws with
  | nil => rfl
  | cons x xs ih =>
    have hx : x = WStatus.done := h x (by simp)
    have hxs := ih (fun w hw => h w (List.mem_cons_of_mem _ hw))
    simp [countBusy, hx, hxs]

theorem poolStep_inv {s s' : PoolSt} {n : Nat} (hst : PoolStep s s')
    (hinv : PoolInv n s) : PoolInv n s' := by
  obtain ⟨hlen, hcount⟩ := hinv
  cases hst with
  | startJob i h =>
    have hc := countBusy_set s.workers i WStatus.idle WStatus.busy h
    simp at hc
    exact ⟨by simp [hlen], by simp only []; omega⟩
  | finishJob i h =>
    have hc := countBusy_set s.workers i WStatus.busy WStatus.idle h
    simp at hc
    exact ⟨by simp [hlen], by simp only []; omega⟩
  | terminateWorker i h =>
    have hc := countBusy_set s.workers i WStatus.idle WStatus.done h
    simp at hc
    exact ⟨by simp [hlen], by simp only []; omega⟩

theorem poolReachable_inv {n : Nat} {s : PoolSt} (h : PoolReachable n s) :
    PoolInv n s := by
  induction h with
  | refl =>
    exact ⟨by simp [ThreadPool.init],
      by simp [ThreadPool.init, countBusy_replicate_idle]⟩
  | tail hr hst ih => exact poolStep_inv hst ih

/-! ## Claim theorems -/

/-- C3: at every state of the worker pool reachable from construction,
`0 ≤ num_busy ≤ pool_size` (each worker increments the counter when it
takes a job and decrements it when the job finishes), and once every worker
thread has exited the counter reads 0. -/
theorem busy_counter_invariant (n : Nat) (s : PoolSt) (h : PoolReachable n s) :
    0 ≤ s.numBusy ∧ s.numBusy ≤ (n : Int) ∧
      ((∀ w ∈ s.workers, w = WStatus.done) → s.numBusy = 0) := by
  obtain ⟨hlen, hcount⟩ := poolReachable_inv h
  have hle := countBusy_le_length s.workers
  refine ⟨by omega, by omega, fun hd => ?_⟩
  have h0 := countBusy_eq_zero_of_all_done s.workers hd
  omega

theorem busy_counter_invariant_witness :
    0 ≤ (ThreadPool.init 2).numBusy ∧ (ThreadPool.init 2).numBusy ≤ (2 : Int) ∧
      ((∀ w ∈ (ThreadPool.init 2).workers, w = WStatus.done) →
        (ThreadPool.init 2).numBusy = 0) :=
  busy_counter_invariant 2 (ThreadPool.init 2) Relation.ReflTransGen.refl

/-- C1: when `accept` would-blocks and the busy counter reads 0, the accept
loop returns the dedicated `ErrorKind::Timeout` (a constructor distinct
from every IO error); when it would-blocks with a nonzero busy counter, the
loop simply continues, leaving the dispatched work untouched. -/
theorem listen_idle_timeout_policy (busy : Int)
    (rest : List (Except ErrorKind Unit × Int)) (d : Nat) (hb : busy ≠ 0) :
    (listenLoop ((Except.error (ErrorKind.ioFail IOErrorKind.wouldBlock), 0) :: rest) d
        = Except.error ErrorKind.timeout) ∧
    (listenLoop ((Except.error (ErrorKind.ioFail IOErrorKind.wouldBlock), busy) :: rest) d
        = listenLoop rest d) ∧
    (∀ k, ErrorKind.timeout ≠ ErrorKind.ioFail k) :=
  ⟨by simp [listenLoop], by simp [listenLoop, hb], fun k h => by cases h⟩

theorem listen_idle_timeout_policy_witness :
    (listenLoop [(Except.error (ErrorKind.ioFail IOErrorKind.wouldBlock), 0)] 0
        = Except.error ErrorKind.timeout) ∧
    (listenLoop [(Except.error (ErrorKind.ioFail IOErrorKind.wouldBlock), 1)] 0
        = listenLoop [] 0) ∧
    (∀ k, ErrorKind.timeout ≠ ErrorKind.ioFail k) :=
  listen_idle_timeout_policy 1 [] 0 (by decide)

/-- C10: `ThreadPool::new(0)` fails its `assert!(size > 0)` (modelled as
`none`), so `listen` with 0 workers panics before its accept loop processes
anything; with `size ≥ 1` construction succeeds with exactly `size` idle
workers. -/
theorem threadpool_size_assertion :
    ThreadPool.new 0 = none ∧
    (∀ events, listen (Except.ok ()) 0 events = ListenOutcome.panicPoolSize) ∧
    (∀ size, 1 ≤ size →
      ThreadPool.new size = some (ThreadPool.init size) ∧
      (ThreadPool.init size).workers.length = size ∧
      (ThreadPool.init size).numBusy = 0) := by
  refine ⟨rfl, fun events => rfl, fun size hs => ⟨?_, by simp [ThreadPool.init], rfl⟩⟩
  have h0 : 0 < size := hs
  unfold ThreadPool.new
  rw [if_pos h0]

theorem threadpool_size_assertion_witness :
    ThreadPool.new 3 = some (ThreadPool.init 3) ∧
    (ThreadPool.init 3).workers.length = 3 ∧ (ThreadPool.init 3).numBusy = 0 :=
  threadpool_size_assertion.2.2 3 (by decide)

/-! ## Worker loop / teardown lemmas (C4) -/

theorem workerRun_exit_iff (msgs : List Message) :
    (workerRun msgs).2 = true ↔ Message.terminate ∈ msgs := by
  induction msgs with
  | nil => simp [workerRun]
  | cons m rest ih =>
    cases m with
    | newJob j => simp [workerRun, ih]
    | terminate => simp [workerRun]

theorem workerRun_drain (js : List Nat) :
    workerRun (js.map Message.newJob ++ [Message.terminate]) = (js, true) := by
  induction js with
  | nil => rfl
  | cons x xs ih => simp [workerRun, ih]

theorem get?_replicate_send (n k : Nat) (hk : k < n) :
    (List.replicate n TpDropEv.sendTerminate).get? k = some TpDropEv.sendTerminate := by
  induction n generalizing k with
  | zero => omega
  | succ n ih =>
    cases k with
    | zero => rfl
    | succ k => simpa [List.replicate_succ] using ih k (by omega)

/-- C4: pool teardown sends exactly one sentinel per worker and then joins
every worker thread; each join is positioned after all the sentinel sends;
a worker's loop exits exactly when it dequeues a sentinel; a dequeued job
runs to completion before the next message is examined; and a worker fed
its jobs followed by one sentinel runs them all and exits. -/
theorem pool_teardown_spec (n : Nat) (j : Nat) (msgs : List Message) (js : List Nat) :
    ((ThreadPool.dropTrace n).count TpDropEv.sendTerminate = n) ∧
    (∀ i, i < n → TpDropEv.joinWorker i ∈ ThreadPool.dropTrace n) ∧
    (∀ k i, (ThreadPool.dropTrace n).get? k = some (TpDropEv.joinWorker i) → n ≤ k) ∧
    ((workerRun msgs).2 = true ↔ Message.terminate ∈ msgs) ∧
    (workerRun (Message.newJob j :: msgs)
        = (j :: (workerRun msgs).1, (workerRun msgs).2)) ∧
    (workerRun (js.map Message.newJob ++ [Message.terminate]) = (js, true)) := by
  refine ⟨?_, ?_, ?_, workerRun_exit_iff msgs, rfl, workerRun_drain js⟩
  · unfold ThreadPool.dropTrace
    rw [List.count_append, List.count_replicate_self]
    have h0 : ((List.range n).map TpDropEv.joinWorker).count TpDropEv.sendTerminate = 0 := by
      rw [List.count_eq_zero]
      simp
    omega
  · intro i hi
    unfold ThreadPool.dropTrace
    rw [List.mem_append]
    right
    exact List.mem_map_of_mem _ (List.mem_range.2 hi)
  · intro k i hget
    by_contra hnk
    push_neg at hnk
    have hs := get?_replicate_send n k hnk
    unfold ThreadPool.dropTrace at hget
    rw [List.get?_eq_getElem?, List.getElem?_append_left (by simpa using hnk),
      ← List.get?_eq_getElem?] at hget
    rw [hs] at hget
    simp at hget

theorem pool_teardown_spec_witness :
    TpDropEv.joinWorker 0 ∈ ThreadPool.dropTrace 1 ∧
    workerRun ([5].map Message.newJob ++ [Message.terminate]) = ([5], true) :=
  ⟨(pool_teardown_spec 1 7 [Message.terminate] [5]).2.1 0 (by decide),
    (pool_teardown_spec 1 7 [Message.terminate] [5]).2.2.2.2.2⟩

/-! ## Service-activation lemmas (C2) -/

theorem wrapI32_eq_of (x : Int) (h0 : 0 ≤ x) (h1 : x < 2 ^ 31) : wrapI32 x = x := by
  unfold wrapI32
  rw [Int.emod_eq_of_lt h0 (h1.trans (by norm_num))]
  exact if_pos h1

theorem fdVal_small (i : Nat) (h : (i : Int) + 3 < 2 ^ 31) : fdVal i = 3 + (i : Int) := by
  unfold fdVal
  rw [wrapI32_eq_of (i : Int) (by omega) (by omega),
    wrapI32_eq_of (3 + (i : Int)) (by omega) (by omega)]

theorem fdVal_wrap_at : fdVal (2 ^ 31) = 3 - 2 ^ 31 := by
  have e1 : (((2 : Nat) ^ 31 : Nat) : Int) = 2 ^ 31 := by push_cast
  unfold fdVal
  rw [e1]
  have e2 : wrapI32 (2 ^ 31) = 2 ^ 31 - 2 ^ 32 := by
    unfold wrapI32
    rw [Int.emod_eq_of_lt (by norm_num) (by norm_num)]
    rw [if_neg (by norm_num)]
  rw [e2]
  have e3 : (3 + (2 ^ 31 - 2 ^ 32) : Int) = 3 - 2 ^ 31 := by norm_num
  rw [e3]
  unfold wrapI32
  have e4 : (3 - 2 ^ 31 : Int) = 2 ^ 31 + 3 + 2 ^ 32 * (-1) := by norm_num
  rw [e4, Int.add_mul_emod_self_left,
    Int.emod_eq_of_lt (by norm_num) (by norm_num)]
  rw [if_neg (by norm_num)]
  norm_num

theorem splitOnChar_replicate_colon (m : Nat) (cs : List Char) :
    splitOnChar ':' (List.replicate m ':' ++ cs)
      = List.replicate m [] ++ splitOnChar ':' cs := by
  induction m with
  | zero => simp
  | succ m ih =>
    rw [List.replicate_succ, List.cons_append, List.replicate_succ, List.cons_append]
    simp [splitOnChar, ih]

theorem findFdIndex_replicate_nil (m k : Nat) (l : List (List Char)) :
    findFdIndex k (List.replicate m ([] : List Char) ++ l) = findFdIndex (k + m) l := by
  induction m generalizing k with
  | zero => simp
  | succ m ih =>
    rw [List.replicate_succ, List.cons_append]
    have hne : ¬ (([] : List Char) = "varlink".data) := by decide
    rw [show findFdIndex k (([] : List Char) :: (List.replicate m ([] : List Char) ++ l))
        = findFdIndex (k + 1) (List.replicate m ([] : List Char) ++ l) from by
      simp [findFdIndex, hne]]
    rw [ih (k + 1), show k + 1 + m = k + (m + 1) from by omega]

theorem findFdIndex_eq (k : Nat) (l : List (List Char)) (d : Int) :
    findFdIndex k l = some d ↔
      ∃ pre post, l = pre ++ "varlink".data :: post ∧
        "varlink".data ∉ pre ∧ d = fdVal (k + pre.length) := by
  induction l generalizing k with
  | nil => simp [findFdIndex]
  | cons x xs ih =>
    by_cases hx : x = "varlink".data
    · subst hx
      constructor
      · intro h
        simp [findFdIndex] at h
        refine ⟨[], xs, rfl, by simp, ?_⟩
        simp only [List.length_nil, Nat.add_zero]
        exact h.symm
      · rintro ⟨pre, post, heq, hnot, hd⟩
        cases pre with
        | nil =>
          simp only [List.nil_append] at heq
          injection heq with h1 h2
          simp only [List.length_nil, Nat.add_zero] at hd
          simp [findFdIndex, hd]
        | cons y pre' =>
          rw [List.cons_append] at heq
          injection heq with h1 h2
          exact absurd (h1 ▸ List.mem_cons_self y pre') hnot
    · have hstep : findFdIndex k (x :: xs) = findFdIndex (k + 1) xs := by
        simp [findFdIndex, hx]
      rw [hstep, ih (k + 1)]
      constructor
      · rintro ⟨pre, post, heq, hnot, hd⟩
        refine ⟨x :: pre, post, by simp [heq], ?_, ?_⟩
        · intro hmem
          rcases List.mem_cons.1 hmem with h1 | h1
          · exact hx h1.symm
          · exact hnot h1
        · simp only [List.length_cons]
          rw [show k + (pre.length + 1) = k + 1 + pre.length from by omega]
          exact hd
      · rintro ⟨pre, post, heq, hnot, hd⟩
        cases pre with
        | nil =>
          simp only [List.nil_append] at heq
          injection heq with h1 h2
          exact absurd h1 hx
        | cons y pre' =>
          rw [List.cons_append] at heq
          injection heq with h1 h2
          refine ⟨pre', post, h2, fun hm => hnot (List.mem_cons_of_mem _ hm), ?_⟩
          simp only [List.length_cons] at hd
          rw [show k + 1 + pre'.length = k + (pre'.length + 1) from by omega]
          exact hd

/-- C2 counterexample: with `LISTEN_FDNAMES` placing the first `"varlink"`
entry at index 2^31 (2^31 empty entries before it), the program's
`3 + i as i32` (server.rs line 89) wraps: the lookup yields descriptor
`3 - 2^31`, not the `3 + index` value the claim asserts. -/
theorem activation_index_wrap_counterexample :
    splitOnChar ':' (List.replicate (2 ^ 31) ':' ++ "varlink".data)
      = List.replicate (2 ^ 31) [] ++ "varlink".data :: [] ∧
    "varlink".data ∉ List.replicate (2 ^ 31) ([] : List Char) ∧
    activation_listener
        ⟨some "2", some "42",
          some ⟨List.replicate (2 ^ 31) ':' ++ "varlink".data⟩⟩ 42
      = some (3 - 2 ^ 31) ∧
    (3 - 2 ^ 31 : Int) ≠ 3 + ((2 ^ 31 : Nat) : Int) := by
  refine ⟨?_, ?_, ?_, ?_⟩
  · rw [splitOnChar_replicate_colon,
      show splitOnChar ':' "varlink".data = ["varlink".data] from by decide]
  · intro hm
    exact absurd (List.eq_of_mem_replicate hm) (by decide)
  · unfold activation_listener
    dsimp only
    rw [show parseU32 "2" = some 2 from by decide]
    dsimp only
    rw [if_pos (by norm_num : (1 : Nat) ≤ 2)]
    rw [if_pos (show parseI32 "42" = some 42 from by decide)]
    rw [if_neg (by norm_num : ¬ (2 : Nat) = 1)]
    rw [splitOnChar_replicate_colon,
      show splitOnChar ':' ['v', 'a', 'r', 'l', 'i', 'n', 'k']
          = [['v', 'a', 'r', 'l', 'i', 'n', 'k']] from by decide,
      findFdIndex_replicate_nil,
      show (0 + 2 ^ 31 : Nat) = 2 ^ 31 from by omega,
      show (['v', 'a', 'r', 'l', 'i', 'n', 'k'] : List Char) = "varlink".data from by decide]
    rw [show findFdIndex (2 ^ 31) ["varlink".data] = some (fdVal (2 ^ 31)) from by
      simp [findFdIndex]]
    rw [fdVal_wrap_at]
  · push_cast

/-- C2 (amended): the activation lookup adopts a descriptor exactly when
`LISTEN_FDS` parses to some `n ≥ 1` and `LISTEN_PID` parses to the current
process id; one descriptor means the fixed fd 3, and several mean the
i32 value `3 + (i as i32)`, computed with wrapping 32-bit arithmetic —
equal to the claim's `3 + i` whenever `i + 3 < 2^31` — for `i` the
position of the first `"varlink"` entry of the colon-separated
`LISTEN_FDNAMES`, with no descriptor when that list is absent or has no
matching entry. -/
theorem activation_lookup_spec (env : Env) (pid : Int) (d : Int) :
    activation_listener env pid = some d ↔
      ∃ s n, env.listen_fds = some s ∧ parseU32 s = some n ∧ 1 ≤ n ∧
        (∃ p, env.listen_pid = some p ∧ parseI32 p = some pid) ∧
        ((n = 1 ∧ d = 3) ∨
          (2 ≤ n ∧ ∃ names pre post,
            env.listen_fdnames = some names ∧
            splitOnChar ':' names.data = pre ++ "varlink".data :: post ∧
            "varlink".data ∉ pre ∧ d = fdVal pre.length ∧
            ((pre.length : Int) + 3 < 2 ^ 31 → d = 3 + (pre.length : Int)))) := by
  unfold activation_listener
  cases hfds : env.listen_fds with
  | none => simp
  | some s =>
    dsimp only
    cases hu : parseU32 s with
    | none => simp [hu]
    | some n =>
      dsimp only
      by_cases hn : 1 ≤ n
      · rw [if_pos hn]
        cases hp : env.listen_pid with
        | none => simp [hu, hn]
        | some p =>
          dsimp only
          by_cases hpid : parseI32 p = some pid
          · rw [if_pos hpid]
            by_cases h1 : n = 1
            · subst h1
              simp [hu, hpid]
              omega
            · rw [if_neg h1]
              have h2 : 2 ≤ n := by omega
              cases hnm : env.listen_fdnames with
              | none => simp [hu, hn, hpid, h1]
              | some names =>
                dsimp only
                rw [findFdIndex_eq]
                constructor
                · rintro ⟨pre, post, heq, hnot, hd⟩
                  rw [Nat.zero_add] at hd
                  exact ⟨s, n, rfl, hu, hn, ⟨p, rfl, hpid⟩,
                    Or.inr ⟨h2, names, pre, post, rfl, heq, hnot, hd,
                      fun hsmall => by rw [hd, fdVal_small _ hsmall]⟩⟩
                · rintro ⟨s', n', hs', hu', hn', ⟨p', hp', hpid'⟩, hcase⟩
                  injection hs' with hs'
                  subst hs'
                  rw [hu] at hu'
                  injection hu' with hu'
                  subst hu'
                  rcases hcase with ⟨hn1, _⟩ |
                    ⟨_, names', pre, post, hnm', heq, hnot, hd, _⟩
                  · exact absurd hn1 h1
                  · injection hnm' with hnm'
                    subst hnm'
                    exact ⟨pre, post, heq, hnot, by rw [Nat.zero_add]; exact hd⟩
          · rw [if_neg hpid]
            constructor
            · intro h
              simp at h
            · rintro ⟨s', n', hs', hu', hn', ⟨p', hp', hpid'⟩, hcase⟩
              injection hp' with hp'
              subst hp'
              exact absurd hpid' hpid
      · rw [if_neg hn]
        constructor
        · intro h
          simp at h
        · rintro ⟨s', n', hs', hu', hn', _, _⟩
          injection hs' with hs'
          subst hs'
          rw [hu] at hu'
          injection hu' with hu'
          omega

theorem activation_lookup_spec_witness :
    activation_listener ⟨some "2", some "42", some "a:varlink"⟩ 42 = some 4 :=
  (activation_lookup_spec ⟨some "2", some "42", some "a:varlink"⟩ 42 4).mpr
    ⟨"2", 2, rfl, by decide, by decide, ⟨"42", rfl, by decide⟩,
      Or.inr ⟨by decide, "a:varlink", [['a']], [], rfl, by decide, by decide,
        by
          show (4 : Int) = fdVal 1
          rw [fdVal_small 1 (by norm_num)]
          norm_num,
        fun _ => by norm_num⟩⟩

/-- C7: on listener teardown, a filesystem entry is removed exactly for a
live, non-adopted, path-backed Unix listener (and it is that socket path);
a live adopted Unix listener clears its read timeout, restoring blocking
mode, before release; TCP listeners and abstract-namespace listeners (whose
local address has no pathname) perform no action at all. -/
theorem listener_drop_frame :
    (∀ (l : Listener) (p : String),
        DropEv.removeFile p ∈ VarlinkListener.dropEvents l →
        ∃ h, l = Listener.unixL (some h) false ∧ h.localAddr = some (some p)) ∧
    (∀ p : String,
        VarlinkListener.dropEvents (Listener.unixL (some ⟨some (some p)⟩) false)
          = [DropEv.removeFile p]) ∧
    (∀ h : UnixHandle,
        VarlinkListener.dropEvents (Listener.unixL (some h) true)
          = [DropEv.clearReadTimeout]) ∧
    (∀ (hnd : Option Unit) (a : Bool),
        VarlinkListener.dropEvents (Listener.tcpL hnd a) = []) ∧
    (VarlinkListener.dropEvents (Listener.unixL (some ⟨some none⟩) false) = []) ∧
    (VarlinkListener.dropEvents (Listener.unixL (some ⟨none⟩) false) = []) := by
  refine ⟨?_, fun p => rfl, fun h => rfl, fun hnd a => rfl, rfl, rfl⟩
  intro l p hmem
  match l with
  | Listener.tcpL hnd a => simp [VarlinkListener.dropEvents] at hmem
  | Listener.unixL none false => simp [VarlinkListener.dropEvents] at hmem
  | Listener.unixL none true => simp [VarlinkListener.dropEvents] at hmem
  | Listener.unixL (some h) true => simp [VarlinkListener.dropEvents] at hmem
  | Listener.unixL (some ⟨none⟩) false => simp [VarlinkListener.dropEvents] at hmem
  | Listener.unixL (some ⟨some none⟩) false =>
    simp [VarlinkListener.dropEvents] at hmem
  | Listener.unixL (some ⟨some (some q)⟩) false =>
    simp [VarlinkListener.dropEvents] at hmem
    exact ⟨⟨some (some q)⟩, rfl, by rw [hmem]⟩

theorem listener_drop_frame_witness :
    ∃ h, Listener.unixL (some ⟨some (some "/run/v.sock")⟩) false
        = Listener.unixL (some h) false ∧ h.localAddr = some (some "/run/v.sock") :=
  listener_drop_frame.1 (Listener.unixL (some ⟨some (some "/run/v.sock")⟩) false)
    "/run/v.sock" (by simp [VarlinkListener.dropEvents])

/-- C5: a request naming the known interface org.example.ping with a
method other than Ping and Upgrade is answered by the method-not-found
named error whose parameters carry the offending method name, and no
handler is invoked. -/
theorem method_not_found_dispatch (h : HandlerBehavior) (req : Request)
    (_hk : strStartsWith req.method "org.example.ping." = true)
    (h1 : req.method ≠ "org.example.ping.Ping")
    (h2 : req.method ≠ "org.example.ping.Upgrade") :
    proxyCall h req
      = ⟨[⟨some "org.varlink.service.MethodNotFound",
            some (JValue.objV [("method", JValue.strV req.method)])⟩],
          none, Except.ok ()⟩ := by
  simp [proxyCall, h1, h2, reply_method_not_found]

theorem method_not_found_dispatch_witness :
    proxyCall hNone ⟨"org.example.ping.Frob", none⟩
      = ⟨[⟨some "org.varlink.service.MethodNotFound",
            some (JValue.objV [("method", JValue.strV "org.example.ping.Frob")])⟩],
          none, Except.ok ()⟩ :=
  method_not_found_dispatch hNone ⟨"org.example.ping.Frob", none⟩ (by decide)
    (by decide) (by decide)

/-- C6: a Ping request whose parameters fail to deserialize is answered by
the standard invalid-parameter reply carrying the decode message — which
names the offending field when one is identifiable, as the missing-field
case shows — while the decode failure itself is returned as the call's
error; absent parameters get the invalid-parameter reply on the literal
"parameters". -/
theorem invalid_parameter_dispatch (h : HandlerBehavior) (v : JValue) (es : String)
    (hd : decodePingArgs v = Except.error es) :
    (proxyCall h ⟨"org.example.ping.Ping", some v⟩
        = ⟨[reply_invalid_parameter es], none,
            Except.error (ErrorKind.serdeJsonDe es)⟩) ∧
    (proxyCall h ⟨"org.example.ping.Ping", none⟩
        = ⟨[reply_invalid_parameter "parameters"], none, Except.ok ()⟩) ∧
    (∀ fields, jLookup "ping" fields = none →
        decodePingArgs (JValue.objV fields) = Except.error "missing field `ping`") := by
  refine ⟨by simp [proxyCall, hd], by simp [proxyCall], fun fields hf => ?_⟩
  simp [decodePingArgs, hf]

theorem invalid_parameter_dispatch_witness :
    proxyCall hNone ⟨"org.example.ping.Ping", some (JValue.objV [])⟩
      = ⟨[reply_invalid_parameter "missing field `ping`"], none,
          Except.error (ErrorKind.serdeJsonDe "missing field `ping`")⟩ :=
  (invalid_parameter_dispatch hNone (JValue.objV []) "missing field `ping`" rfl).1

/-! ## Listener construction lemmas (C8, C9) -/

theorem mem_timeoutStep (o : SysOracle) (timeout : Nat) (e : Ev)
    (h : e ∈ (timeoutStep o timeout).1) : e = Ev.setReadTimeout timeout := by
  unfold timeoutStep at h
  split at h
  · simp at h
  · simpa using h

/-- Every trace of `VarlinkListener::new` has one of these shapes. -/
theorem new_trace_cases (o : SysOracle) (address : String) (timeout : Nat) :
    (∃ l, (VarlinkListener.new o address timeout).1
        = Ev.adoptFd l :: (timeoutStep o timeout).1) ∨
    ((VarlinkListener.new o address timeout).1 = []) ∨
    ((VarlinkListener.new o address timeout).1 = [Ev.bindTcp (strDrop address 4)]) ∨
    ((VarlinkListener.new o address timeout).1
        = Ev.bindTcp (strDrop address 4) :: (timeoutStep o timeout).1) ∨
    ((VarlinkListener.new o address timeout).1
        = [Ev.bindAbstract
            (replacen1 (upToSemicolon (strDrop address 5)) '@' (Char.ofNat 0))]) ∨
    ((VarlinkListener.new o address timeout).1
        = Ev.bindAbstract (replacen1 (upToSemicolon (strDrop address 5)) '@' (Char.ofNat 0))
            :: (timeoutStep o timeout).1) ∨
    (∃ rest, ((VarlinkListener.new o address timeout).1
        = Ev.removeFile (upToSemicolon (strDrop address 5))
            (o.removeFileRes (upToSemicolon (strDrop address 5)))
          :: Ev.bindUnixPath (upToSemicolon (strDrop address 5)) :: rest) ∧
        (rest = [] ∨ rest = (timeoutStep o timeout).1)) := by
  unfold VarlinkListener.new
  dsimp only
  cases o.activation <;> dsimp only <;> repeat' split
  all_goals simp

/-- C8 counterexample: with the stale-file removal failing with
`PermissionDenied` — not a not-found error — `VarlinkListener::new` does
not propagate the removal error: `let _ = fs::remove_file(..)` discards it
and binding proceeds, returning a successfully bound listener. -/
theorem stale_removal_counterexample :
    oracleRemoveFails.removeFileRes "/tmp/v.sock" = some IOErrorKind.permissionDenied ∧
    (VarlinkListener.new oracleRemoveFails "unix:/tmp/v.sock" 0).1
      = [Ev.removeFile "/tmp/v.sock" (some IOErrorKind.permissionDenied),
         Ev.bindUnixPath "/tmp/v.sock"] ∧
    (VarlinkListener.new oracleRemoveFails "unix:/tmp/v.sock" 0).2
      = Except.ok (Listener.unixL (some ⟨some (some "/tmp/v.sock")⟩) false) :=
  ⟨rfl, rfl, rfl⟩

/-- C8 (amended): `VarlinkListener::new` ignores the outcome of the
stale-file removal entirely — a not-found failure and any other failure
alike — so its result never depends on the removal oracle; the removal
attempt still happens, and whenever it appears in the trace it is
immediately followed by the bind of the same path. -/
theorem stale_removal_ignored (o : SysOracle) (r : String → Option IOErrorKind)
    (address : String) (timeout : Nat) :
    ((VarlinkListener.new (o.withRemove r) address timeout).2
        = (VarlinkListener.new o address timeout).2) ∧
    (∀ path res, Ev.removeFile path res ∈ (VarlinkListener.new o address timeout).1 →
      ∃ rest, (VarlinkListener.new o address timeout).1
          = Ev.removeFile path res :: Ev.bindUnixPath path :: rest) := by
  constructor
  · unfold VarlinkListener.new SysOracle.withRemove timeoutStep
    dsimp only
    repeat' split
    all_goals rfl
  · intro path res hmem
    rcases new_trace_cases o address timeout with
      ⟨l, ht⟩ | ht | ht | ht | ht | ht | ⟨rest, ht, hrest⟩
    · rw [ht] at hmem
      rcases List.mem_cons.1 hmem with h | h
      · simp at h
      · have hc := mem_timeoutStep o timeout _ h
        simp at hc
    · rw [ht] at hmem
      simp at hmem
    · rw [ht] at hmem
      simp at hmem
    · rw [ht] at hmem
      rcases List.mem_cons.1 hmem with h | h
      · simp at h
      · have hc := mem_timeoutStep o timeout _ h
        simp at hc
    · rw [ht] at hmem
      simp at hmem
    · rw [ht] at hmem
      rcases List.mem_cons.1 hmem with h | h
      · simp at h
      · have hc := mem_timeoutStep o timeout _ h
        simp at hc
    · rw [ht] at hmem
      rcases List.mem_cons.1 hmem with h | h
      · rcases Ev.removeFile.inj h with ⟨hp, hr⟩
        subst hp
        subst hr
        exact ⟨rest, ht⟩
      · rcases List.mem_cons.1 h with h' | h'
        · simp at h'
        · rcases hrest with he | he
          · rw [he] at h'
            simp at h'
          · rw [he] at h'
            have hc := mem_timeoutStep o timeout _ h'
            simp at hc

theorem stale_removal_ignored_witness :
    ∃ rest, (VarlinkListener.new oracleAllOk "unix:/tmp/v.sock" 0).1
      = Ev.removeFile "/tmp/v.sock" none :: Ev.bindUnixPath "/tmp/v.sock" :: rest :=
  (stale_removal_ignored oracleAllOk (fun _ => some IOErrorKind.notFound)
    "unix:/tmp/v.sock" 0).2 "/tmp/v.sock" none (by decide)

/-- Every event of a `VarlinkListener::new` trace is one of these. -/
theorem mem_new_trace (o : SysOracle) (address : String) (timeout : Nat) (e : Ev)
    (h : e ∈ (VarlinkListener.new o address timeout).1) :
    (∃ l, e = Ev.adoptFd l) ∨ e = Ev.setReadTimeout timeout ∨
    e = Ev.bindTcp (strDrop address 4) ∨
    e = Ev.bindAbstract (replacen1 (upToSemicolon (strDrop address 5)) '@' (Char.ofNat 0)) ∨
    e = Ev.removeFile (upToSemicolon (strDrop address 5))
          (o.removeFileRes (upToSemicolon (strDrop address 5))) ∨
    e = Ev.bindUnixPath (upToSemicolon (strDrop address 5)) := by
  rcases new_trace_cases o address timeout with
    ⟨l, ht⟩ | ht | ht | ht | ht | ht | ⟨rest, ht, hrest⟩ <;> rw [ht] at h
  · rcases List.mem_cons.1 h with h | h
    · exact Or.inl ⟨l, h⟩
    · exact Or.inr (Or.inl (mem_timeoutStep o timeout _ h))
  · simp at h
  · simp at h
    exact Or.inr (Or.inr (Or.inl h))
  · rcases List.mem_cons.1 h with h | h
    · exact Or.inr (Or.inr (Or.inl h))
    · exact Or.inr (Or.inl (mem_timeoutStep o timeout _ h))
  · simp at h
    exact Or.inr (Or.inr (Or.inr (Or.inl h)))
  · rcases List.mem_cons.1 h with h | h
    · exact Or.inr (Or.inr (Or.inr (Or.inl h)))
    · exact Or.inr (Or.inl (mem_timeoutStep o timeout _ h))
  · rcases List.mem_cons.1 h with h | h
    · exact Or.inr (Or.inr (Or.inr (Or.inr (Or.inl h))))
    · rcases List.mem_cons.1 h with h | h
      · exact Or.inr (Or.inr (Or.inr (Or.inr (Or.inr h))))
      · rcases hrest with he | he
        · rw [he] at h
          simp at h
        · rw [he] at h
          exact Or.inr (Or.inl (mem_timeoutStep o timeout _ h))

theorem takeWhile_semi_append (pre post : List Char) (h : ∀ c ∈ pre, c ≠ ';') :
    (pre ++ ';' :: post).takeWhile (fun c => decide (c ≠ ';')) = pre := by
  induction pre with
  | nil =>
    rw [List.nil_append, List.takeWhile_cons, if_neg (by simp)]
  | cons a l ih =>
    have ha : a ≠ ';' := h a (by simp)
    rw [List.cons_append, List.takeWhile_cons, if_pos (by simp [ha])]
    exact congrArg (a :: ·) (ih (fun c hc => h c (List.mem_cons_of_mem _ hc)))

theorem takeWhile_no_semi (pre : List Char) (h : ∀ c ∈ pre, c ≠ ';') :
    pre.takeWhile (fun c => decide (c ≠ ';')) = pre := by
  induction pre with
  | nil => rfl
  | cons a l ih =>
    have ha : a ≠ ';' := h a (by simp)
    rw [List.takeWhile_cons, if_pos (by simp [ha])]
    exact congrArg (a :: ·) (ih (fun c hc => h c (List.mem_cons_of_mem _ hc)))

/-- C9 counterexample: for a `tcp:` address the `;`-suffix is not stripped:
`VarlinkListener::new` passes the whole remainder — `;`-suffix included —
to `TcpListener::bind`, not just the host:port before the first `;`. -/
theorem tcp_semicolon_counterexample :
    (VarlinkListener.new oracleAllOk "tcp:127.0.0.1:1234;mode=fast" 0).1
      = [Ev.bindTcp "127.0.0.1:1234;mode=fast"] ∧
    ("127.0.0.1:1234;mode=fast" : String) ≠ "127.0.0.1:1234" :=
  ⟨rfl, by decide⟩

/-- C9 (amended): the optional `;`-suffix is honoured for `unix:` addresses
only: the Unix path or abstract name actually bound is exactly the part of
the address before its first `;` (the leading `@` of an abstract name
replaced by a NUL byte), whereas a `tcp:` bind receives the whole remainder
after `tcp:`, `;`-suffix included; an address starting with neither `tcp:`
nor `unix:` yields the invalid-address error. -/
theorem address_form_handling (o : SysOracle) (address : String) (timeout : Nat)
    (pre post : List Char) (hpre : ∀ c ∈ pre, c ≠ ';') :
    (∀ s, Ev.bindTcp s ∈ (VarlinkListener.new o address timeout).1 →
        s = strDrop address 4) ∧
    (∀ p, Ev.bindUnixPath p ∈ (VarlinkListener.new o address timeout).1 →
        p = upToSemicolon (strDrop address 5)) ∧
    (∀ nm, Ev.bindAbstract nm ∈ (VarlinkListener.new o address timeout).1 →
        nm = replacen1 (upToSemicolon (strDrop address 5)) '@' (Char.ofNat 0)) ∧
    (upToSemicolon ⟨pre ++ ';' :: post⟩ = ⟨pre⟩) ∧
    (upToSemicolon ⟨pre⟩ = ⟨pre⟩) ∧
    (strStartsWith address "tcp:" = false → strStartsWith address "unix:" = false →
      (VarlinkListener.new o address timeout).2 = Except.error ErrorKind.invalidAddress) := by
  refine ⟨?_, ?_, ?_, ?_, ?_, ?_⟩
  · intro s hmem
    rcases mem_new_trace o address timeout _ hmem with ⟨l, he⟩ | he | he | he | he | he <;>
      simp at he
    exact he
  · intro p hmem
    rcases mem_new_trace o address timeout _ hmem with ⟨l, he⟩ | he | he | he | he | he <;>
      simp at he
    exact he
  · intro nm hmem
    rcases mem_new_trace o address timeout _ hmem with ⟨l, he⟩ | he | he | he | he | he <;>
      simp at he
    exact he
  · exact congrArg String.mk (takeWhile_semi_append pre post hpre)
  · exact congrArg String.mk (takeWhile_no_semi pre hpre)
  · intro h1 h2
    unfold VarlinkListener.new
    dsimp only
    cases o.activation <;> dsimp only <;> simp [h1, h2]

theorem address_form_handling_witness :
    upToSemicolon ⟨['a', 'b'] ++ ';' :: ['c']⟩ = ⟨['a', 'b']⟩ ∧
    (VarlinkListener.new oracleAllOk "foo:bar" 0).2
      = Except.error ErrorKind.invalidAddress :=
  ⟨(address_form_handling oracleAllOk "unix:ab;c" 0 ['a', 'b'] ['c'] (by decide)).2.2.2.1,
    (address_form_handling oracleAllOk "foo:bar" 0 [] [] (by decide)).2.2.2.2.2
      (by decide) (by decide)⟩

end Varlink
